import Mathlib

/-!
Shallow embedding of the November Q&A backend (src/backend): the question
parser, the local message cache, the paginated fetcher loop, the LLM
validator's response handling, and the QA orchestration loop, together with
theorems settling the frozen claims about them.

Python library functions that the code calls (`str.lower`, `re` character
classes, `json.loads`, `datetime.fromisoformat`) are modelled as follows:
character classes and case mapping are modelled on ASCII (the repository's
data and questions are ASCII); `json.loads` and `datetime.fromisoformat`
are abstracted as oracle parameters, since they are external library
routines.  Timestamps are modelled as `Nat` with `0` standing for
`datetime.min` (the earliest representable instant, which the code uses as
the "no timestamp" default).
-/

set_option maxHeartbeats 1000000

namespace NovemberQA

/-- ASCII lower-casing of a single character, modelling `str.lower`. -/
def lowerChar (c : Char) : Char :=
  if 65 ≤ c.toNat ∧ c.toNat ≤ 90 then Char.ofNat (c.toNat + 32) else c

/-- ASCII upper-casing of a single character, modelling `str.upper`. -/
def upperChar (c : Char) : Char :=
  if 97 ≤ c.toNat ∧ c.toNat ≤ 122 then Char.ofNat (c.toNat - 32) else c

/-- Model of `str.lower` on whole strings. -/
def lowerStr (s : String) : String := String.mk (s.data.map lowerChar)

/-- Model of `str.upper` on whole strings. -/
def upperStr (s : String) : String := String.mk (s.data.map upperChar)

/-- Uppercase ASCII letter, modelling the regex class `[A-Z]`. -/
def isUpperAZ (c : Char) : Bool := (65 ≤ c.toNat) && (c.toNat ≤ 90)

/-- Lowercase ASCII letter, modelling the regex class `[a-z]`. -/
def isLowerAZ (c : Char) : Bool := (97 ≤ c.toNat) && (c.toNat ≤ 122)

/-- ASCII digit, modelling the regex class `[0-9]`. -/
def isDigitChar (c : Char) : Bool := (48 ≤ c.toNat) && (c.toNat ≤ 57)

/-- Character of the token class `[A-Za-z0-9']` used by the parser's
token pattern. -/
def isTokenChar (c : Char) : Bool :=
  isUpperAZ c || isLowerAZ c || isDigitChar c || (c.toNat == 39)

/-- ASCII whitespace, modelling the regex class `\s` and `str.strip`. -/
def isSpaceChar (c : Char) : Bool :=
  (c.toNat == 32) || (c.toNat == 9) || (c.toNat == 10) ||
  (c.toNat == 13) || (c.toNat == 11) || (c.toNat == 12)

/-- Model of `str.strip` (whitespace on both ends) on character lists. -/
def stripList (l : List Char) : List Char :=
  ((l.dropWhile isSpaceChar).reverse.dropWhile isSpaceChar).reverse

/-- Model of `str.rstrip` (trailing whitespace) on character lists. -/
def rstripList (l : List Char) : List Char :=
  (l.reverse.dropWhile isSpaceChar).reverse

/-- A message record as the backend reads it out of a page's `items`
(JSON object with optional `id`, `user_name`, `message`, `timestamp`). -/
structure Message where
  id : Option String
  user_name : Option String
  message : Option String
  timestamp : Option String
deriving DecidableEq

/-- A page of messages: `{items: [...], total: optional int}`. -/
structure Page where
  items : List Message
  total : Option Int
deriving DecidableEq

/-- The value `str(item.get("id") or "")` used as the cache's dedup key. -/
def msgKey (m : Message) : String := m.id.getD ""

/-- In-memory state of `LocalCache`: the stored message list, the id set
(modelled as a list used only through membership), and the last known
remote total. -/
structure CacheState where
  messages : List Message
  ids : List String
  remote_total : Option Int
deriving DecidableEq

/-- One iteration of the `for item in items` loop body of
`LocalCache.append_items`: skip an item whose (non-empty) id is already
known, otherwise append it, record its id, and mark the store changed. -/
def appendStep (acc : CacheState × Bool) (item : Message) : CacheState × Bool :=
  let key := msgKey item
  if key ≠ "" ∧ key ∈ acc.1.ids then acc
  else
    ({ acc.1 with
        messages := acc.1.messages ++ [item]
        ids := if key = "" then acc.1.ids else key :: acc.1.ids },
      true)

/-- `LocalCache.append_items(items, remote_total)`.  Returns the new cache
state together with whether `_persist` was invoked. -/
def append_items (st : CacheState) (items : List Message)
    (remote_total : Option Int) : CacheState × Bool :=
  if items.isEmpty then (st, false)
  else
    let r := items.foldl appendStep (st, false)
    match remote_total with
    | some t => ({ r.1 with remote_total := some t }, true)
    | none => r

/-- `LocalCache.iter_pages(limit)`: replay the stored messages in
fixed-size chunks; each page's `total` is `self._remote_total or total`
(Python `or`, so a stored remote total of `0` is replaced by the count). -/
def iter_pages (st : CacheState) (limit : Nat) : List Page :=
  let total := st.messages.length
  if total = 0 then []
  else
    (List.range ((total + limit - 1) / limit)).map fun i =>
      { total := some (match st.remote_total with
          | some t => if t = 0 then (total : Int) else t
          | none => (total : Int))
        items := (st.messages.drop (i * limit)).take limit }

/-- `LocalCache.cached_count`. -/
def cached_count (st : CacheState) : Nat := st.messages.length

/-- The parser's fixed stop-word set. -/
def stopWords : List String :=
  ["a", "an", "and", "are", "as", "at", "be", "but", "by", "for", "from",
   "in", "is", "it", "of", "on", "or", "that", "the", "their", "this", "to",
   "with", "who", "what", "when", "where", "why", "how", "was", "were",
   "will", "has", "have", "her", "his", "him", "she", "he", "you", "your",
   "yours", "our", "ours", "my", "mine"]

/-- The locative prepositions checked by `_preceded_by_location_cue`. -/
def locativeCues : List String :=
  ["to", "in", "at", "into", "onto", "towards", "from"]

/-- Match the leading capitalized word `[A-Z][a-z]+` of the input, returning
the matched characters and the remainder.  Greedy matching of `[a-z]+` is
maximal-munch, which agrees with the regex because a lowercase letter can
never start the following `\s+`. -/
def matchCapWord : List Char → Option (List Char × List Char)
  | [] => none
  | c :: rest =>
    if isUpperAZ c then
      let lows := rest.takeWhile isLowerAZ
      if lows.isEmpty then none
      else some (c :: lows, rest.drop lows.length)
    else none

/-- Greedily match `(?:\s+[A-Z][a-z]+)*` at the head of the input.  Fuel
bounds the recursion; `matchMore l.length l` is exact because every
successful step consumes at least two characters. -/
def matchMore : Nat → List Char → List Char × List Char
  | 0, rest => ([], rest)
  | fuel + 1, rest =>
    let sp := rest.takeWhile isSpaceChar
    if sp.isEmpty then ([], rest)
    else
      match matchCapWord (rest.drop sp.length) with
      | some (w, rest2) =>
        let r := matchMore fuel rest2
        (sp ++ w ++ r.1, r.2)
      | none => ([], rest)

/-- Model of `re.finditer` for the name pattern
`([A-Z][a-z]+(?:\s+[A-Z][a-z]+)*)`: the non-overlapping matches with their
starting offsets, scanning left to right.  Fuel bounds the recursion;
`findMatches l.length l 0` is exact because every step consumes at least one
character. -/
def findMatches : Nat → List Char → Nat → List (Nat × List Char)
  | 0, _, _ => []
  | _, [], _ => []
  | fuel + 1, c :: cs, pos =>
    match matchCapWord (c :: cs) with
    | some (w, rest) =>
      let r := matchMore rest.length rest
      let full := w ++ r.1
      (pos, full) :: findMatches fuel r.2 (pos + full.length)
    | none => findMatches fuel cs (pos + 1)

/-- Model of `_token_pattern.findall`: the maximal runs of characters from
the class `[A-Za-z0-9']`.  Fuel bounds the recursion; length-of-input fuel
is exact because every step consumes at least one character. -/
def tokenRuns : Nat → List Char → List (List Char)
  | 0, _ => []
  | _, [] => []
  | fuel + 1, c :: cs =>
    if isTokenChar c then
      ((c :: cs).takeWhile isTokenChar) ::
        tokenRuns fuel ((c :: cs).dropWhile isTokenChar)
    else tokenRuns fuel cs

/-- `QuestionParser._preceded_by_location_cue(text, start)`: whether the
last token of the right-stripped text before `start` is a locative
preposition. -/
def precededByLocationCue (text : List Char) (start : Nat) : Bool :=
  let pre := rstripList (text.take start)
  if pre.isEmpty then false
  else
    let tokens := tokenRuns pre.length pre
    match tokens.getLast? with
    | none => false
    | some t => locativeCues.contains (lowerStr (String.mk t))

/-- The `for match in reversed(matches)` loop of `_extract_member_name`:
return the first candidate (in the given order, which is rightmost-first)
that is not a stop-word and is not preceded by a locative cue. -/
def extractLoop (question : List Char) : List (Nat × List Char) → Option String
  | [] => none
  | (i, w) :: rest =>
    let normalized := String.mk (stripList w)
    if normalized ≠ "" ∧ ¬ stopWords.contains (lowerStr normalized) then
      if ¬ precededByLocationCue question i then some normalized
      else extractLoop question rest
    else extractLoop question rest

/-- `QuestionParser._extract_member_name`. -/
def extract_member_name (question : String) : Option String :=
  extractLoop question.data
    (findMatches question.data.length question.data 0).reverse

/-- The dedup-preserving keyword loop of `_extract_keywords`: drop
stop-words and tokens of length at most two, keep first occurrences. -/
def keywordLoop : List String → List String → List String
  | [], _ => []
  | t :: ts, seen =>
    if stopWords.contains t || t.length ≤ 2 then keywordLoop ts seen
    else if seen.contains t then keywordLoop ts seen
    else t :: keywordLoop ts (t :: seen)

/-- `QuestionParser._extract_keywords`. -/
def extract_keywords (question : String) : List String :=
  let tokens :=
    (tokenRuns question.data.length question.data).map
      (fun r => String.mk (r.map lowerChar))
  keywordLoop tokens []

/-- `ParsedQuestion`. -/
structure ParsedQuestion where
  member_name : Option String
  keywords : List String
deriving DecidableEq

/-- `QuestionParser.parse`. -/
def parse (question : String) : ParsedQuestion :=
  { member_name := extract_member_name question
    keywords := extract_keywords question }

/-- Outcome of one `MessageFetcher.fetch_page` call: a page, or the
`RuntimeError` raised for an unreachable transport, a non-2xx status, or a
non-object payload (the three conditions all surface as `RuntimeError`). -/
inductive FetchResult where
  | ok (page : Page)
  | err
deriving DecidableEq

/-- `MessageFetcher.iterate_pages(limit, start)`: the pages the generator
yields, paired with their request offsets, plus whether it ended by raising
a `RuntimeError` from a fetch.  Fuel bounds the loop (a remote source that
never reports a usable total and never sends an empty page loops forever);
`none` means the fuel ran out before the loop ended. -/
def iterate_pages (fetch : Nat → Nat → FetchResult) (limit : Nat) :
    Nat → Nat → Option Int → Option (List (Nat × Page) × Bool)
  | 0, _, _ => none
  | fuel + 1, skip, total =>
    let keepGoing : Bool :=
      match total with
      | none => true
      | some t => decide ((skip : Int) < t)
    if keepGoing then
      match fetch skip limit with
      | .err => some ([], true)
      | .ok page =>
        let total2 : Option Int :=
          match page.total with
          | some t => some t
          | none => total
        if page.items.isEmpty then some ([(skip, page)], false)
        else
          match iterate_pages fetch limit fuel (skip + limit) total2 with
          | none => none
          | some r => some ((skip, page) :: r.1, r.2)
    else some ([], false)

/-- `ValidatorResult`. -/
structure ValidatorResult where
  answer : String
  source_index : Option Int
deriving DecidableEq

/-- Python substring containment `ndl in hay` on character lists. -/
def containsSub : List Char → List Char → Bool
  | [], ndl => ndl.isEmpty
  | h :: t, ndl => ndl.isPrefixOf (h :: t) || containsSub t ndl

/-- JSON values as `json.loads` can return them (numbers modelled as
integers, which is all the validator's `source_number` contract uses). -/
inductive JValue where
  | null
  | bool (b : Bool)
  | int (n : Int)
  | str (s : String)
  | arr (xs : List JValue)
  | obj (fields : List (String × JValue))

/-- Dictionary lookup `payload.get(key)` on a decoded JSON object. -/
def jGet : List (String × JValue) → String → Option JValue
  | [], _ => none
  | (k, v) :: rest, key => if k = key then some v else jGet rest key

/-- Python truthiness of a decoded JSON value. -/
def jTruthy : JValue → Bool
  | .null => false
  | .bool b => b
  | .int n => n != 0
  | .str s => s ≠ ""
  | .arr xs => !xs.isEmpty
  | .obj fs => !fs.isEmpty

mutual

/-- Python `repr` of a decoded JSON value (string escaping inside `repr` of
strings is not modelled; no claim depends on it). -/
def jRepr : JValue → String
  | .null => "None"
  | .bool b => if b then "True" else "False"
  | .int n => toString n
  | .str s => "\x27" ++ s ++ "\x27"
  | .arr xs => "[" ++ jReprItems xs ++ "]"
  | .obj fs => "\x7b" ++ jReprFields fs ++ "\x7d"

/-- Comma-joined `repr`s of the elements of a JSON array. -/
def jReprItems : List JValue → String
  | [] => ""
  | [x] => jRepr x
  | x :: y :: xs => jRepr x ++ ", " ++ jReprItems (y :: xs)

/-- Comma-joined `'key': repr` entries of a JSON object. -/
def jReprFields : List (String × JValue) → String
  | [] => ""
  | [(k, v)] => "\x27" ++ k ++ "\x27: " ++ jRepr v
  | (k, v) :: f :: fs =>
    "\x27" ++ k ++ "\x27: " ++ jRepr v ++ ", " ++ jReprFields (f :: fs)

end

/-- Python `str()` of a decoded JSON value. -/
def pyStr : JValue → String
  | .str s => s
  | v => jRepr v

/-- Python `int()` applied to a decoded string: optional sign and decimal
digits after stripping whitespace (`int`'s underscore grouping is not
modelled; no claim depends on it). -/
def parseIntStr (s : String) : Option Int :=
  match stripList s.data with
  | [] => none
  | c :: rest =>
    let signDigits : Int × List Char :=
      if c.toNat == 43 then (1, rest)
      else if c.toNat == 45 then (-1, rest)
      else (1, c :: rest)
    if signDigits.2.isEmpty then none
    else if signDigits.2.all isDigitChar then
      some (signDigits.1 *
        signDigits.2.foldl (fun acc d => acc * 10 + ((d.toNat : Int) - 48)) 0)
    else none

/-- Python `int()` applied to a decoded JSON value: success is the
converted integer, failure is the `ValueError`/`TypeError` the code
catches. -/
def pyInt : JValue → Option Int
  | .int n => some n
  | .bool b => some (if b then 1 else 0)
  | .str s => parseIntStr s
  | _ => none

/-- A tool invocation attached to an LLM chat response. -/
structure ToolCall where
  arguments : String
deriving DecidableEq

/-- The `choice.message` part of one completion choice: plain content and
tool calls. -/
structure ChatMessage where
  content : Option String
  tool_calls : List ToolCall
deriving DecidableEq

/-- An LLM chat completion: the `message` of each choice. -/
structure Completion where
  choices : List ChatMessage
deriving DecidableEq

/-- The numbered `sender: text` transcript and prompt that
`LLMValidator.validate_and_answer` sends to the model. -/
def buildPrompt (question : String) (truncated : List Message) : String :=
  let formatted := (truncated.enumFrom 1).map fun p =>
    let user_name :=
      match p.2.user_name with
      | some s => if s = "" then "unknown" else s
      | none => "unknown"
    toString p.1 ++ ". " ++ user_name ++ ": " ++ (p.2.message.getD "")
  "You must answer the user\x27s question using only the candidate messages below.\n" ++
  "Rules:\n" ++
  "1. Use only the provided message text; ignore metadata.\n" ++
  "2. Quote facts only when the message explicitly states them.\n" ++
  "3. If a message answers the question, call the function with the answer text and the candidate number.\n" ++
  "4. If no message answers it, reply with NO_ANSWER.\n\n" ++
  "Question: " ++ question ++ "\n\n" ++
  "Candidate messages:\n" ++ String.intercalate "\n" formatted

/-- `LLMValidator.validate_and_answer(question, candidates)`, with
`json.loads` abstracted as `parseJson` and the chat-completion transport
abstracted as `llm` (prompt to completion).  Returns the result together
with whether an LLM request was issued.  The `try`/`except` around the
tool-call payload is modelled by the failure branches returning the
`NO_ANSWER` sentinel. -/
def validate_and_answer (parseJson : String → Option JValue)
    (llm : String → Completion) (max_messages : Nat)
    (question : String) (candidates : List Message) : ValidatorResult × Bool :=
  if candidates.isEmpty then (⟨"NO_ANSWER", none⟩, false)
  else
    let truncated := candidates.take max_messages
    let completion := llm (buildPrompt question truncated)
    let choice := completion.choices[0]?
    let viaTool : Option ValidatorResult :=
      match choice with
      | none => none
      | some msg =>
        match msg.tool_calls with
        | [] => none
        | tc :: _ =>
          match parseJson tc.arguments with
          | none => some ⟨"NO_ANSWER", none⟩
          | some (.obj fields) =>
            let answer_text := String.mk (stripList (pyStr
              (match jGet fields "answer_text" with
               | some v => if jTruthy v then v else .str ""
               | none => .str "")).data)
            match jGet fields "source_number" with
            | none =>
              if answer_text ≠ "" then some ⟨answer_text, none⟩ else none
            | some .null =>
              if answer_text ≠ "" then some ⟨answer_text, none⟩ else none
            | some v =>
              match pyInt v with
              | none => some ⟨"NO_ANSWER", none⟩
              | some n =>
                if answer_text ≠ "" then some ⟨answer_text, some n⟩ else none
          | some _ => some ⟨"NO_ANSWER", none⟩
    match viaTool with
    | some r => (r, true)
    | none =>
      let message_content :=
        match choice with
        | some msg =>
          match msg.content with
          | some c => String.mk (stripList c.data)
          | none => ""
        | none => ""
      if upperStr message_content = "NO_ANSWER" then (⟨"NO_ANSWER", none⟩, true)
      else if message_content = "" then (⟨"NO_ANSWER", none⟩, true)
      else (⟨message_content, none⟩, true)

/-- `AnswerResult`. -/
structure AnswerResult where
  answer : String
  message : Option Message
deriving DecidableEq

/-- The `nonlocal best_result, best_score` pair that `answer_question`
threads through `process_page`. -/
structure BestState where
  best_score : Int × Nat
  best_result : Option AnswerResult
deriving DecidableEq

/-- The initial best score `(-1, datetime.min)`. -/
def initBest : BestState := ⟨(-1, 0), none⟩

/-- Python `>` on the `(keyword_matches, timestamp)` score tuples
(lexicographic): `scoreLt a b` means `b > a`. -/
def scoreLt (a b : Int × Nat) : Bool :=
  decide (a.1 < b.1) || (decide (a.1 = b.1) && decide (a.2 < b.2))

/-- Non-strict companion of `scoreLt`. -/
def scoreLe (a b : Int × Nat) : Bool := scoreLt a b || decide (a = b)

/-- `QAService._select_source_message(candidates, source_index)`.  Note
`if source_index:` is Python truthiness, so an index of `0` (or `None`)
falls through to the single-candidate rule. -/
def select_source_message (candidates : List Message)
    (source_index : Option Int) : Option Message :=
  if candidates.isEmpty then none
  else
    let byIndex : Option Message :=
      match source_index with
      | none => none
      | some i =>
        if i = 0 then none
        else if i - 1 < 0 then none
        else candidates[(i - 1).toNat]?
    match byIndex with
    | some m => some m
    | none => if candidates.length = 1 then candidates[0]? else none

/-- `QAService._score_candidate(message, parsed)`, with
`datetime.fromisoformat` (including the tz-naive-to-UTC normalization)
abstracted as `parseTs`; a parse failure (`ValueError`) is `none` and falls
back to the `datetime.min` default, here `0`. -/
def score_candidate (parseTs : String → Option Nat) (message : Option Message)
    (parsed : ParsedQuestion) : Int × Nat :=
  match message with
  | none => (0, 0)
  | some m =>
    let message_text := lowerStr (m.message.getD "")
    let keyword_matches :=
      (parsed.keywords.filter fun kw => containsSub message_text.data kw.data).length
    let timestamp_dt :=
      match m.timestamp with
      | none => 0
      | some s => if s = "" then 0 else (parseTs s).getD 0
    ((keyword_matches : Int), timestamp_dt)

/-- `QAService._filter_candidates(items, parsed, resolved_names)`. -/
def filter_candidates (items : List Message) (parsed : ParsedQuestion)
    (resolved_names : List String) : List Message :=
  let resolved_targets := (resolved_names.filter fun n => n ≠ "").map lowerStr
  items.filter fun item =>
    let user_name := item.user_name.getD ""
    let message_text := item.message.getD ""
    (if ¬ resolved_targets.isEmpty then
        resolved_targets.contains (lowerStr user_name)
      else
        match parsed.member_name with
        | some name =>
          if name = "" then true
          else containsSub (lowerStr user_name).data (lowerStr name).data
        | none => true)
    && (if parsed.keywords.isEmpty then true
        else parsed.keywords.any fun kw =>
          containsSub (lowerStr message_text).data kw.data)

/-- The external collaborators of `QAService.answer_question`: the name
resolver (question and page names to the resolved lowercase name set), the
validator (question and candidates to its result), the timestamp parser,
and the remote fetch (`skip`, `limit` to one page or a raised error). -/
structure QADeps where
  resolver : String → List String → List String
  validator : String → List Message → ValidatorResult
  parseTs : String → Option Nat
  fetch : Nat → Nat → FetchResult

/-- The distinct-sender collection `page_names` of `process_page`: the
`user_name` of every item whose `user_name` is truthy. -/
def pageNames (items : List Message) : List String :=
  items.filterMap fun item =>
    match item.user_name with
    | some s => if s = "" then none else some s
    | none => none

/-- The candidate set `process_page` sends to the validator: the page
filtered against the resolver's output. -/
def pageCandidates (deps : QADeps) (question : String) (parsed : ParsedQuestion)
    (items : List Message) : List Message :=
  filter_candidates items parsed (deps.resolver question (pageNames items))

/-- The inner coroutine `process_page(page, source)` of
`answer_question`: resolve names, filter, validate, score, and replace the
best result when the new score is strictly greater. -/
def process_page (deps : QADeps) (question : String) (parsed : ParsedQuestion)
    (page : Page) (st : BestState) : BestState :=
  let items := page.items
  if items.isEmpty then st
  else
    let candidates := pageCandidates deps question parsed items
    let validation := deps.validator question candidates
    if validation.answer = "NO_ANSWER" then st
    else
      let source_message := select_source_message candidates validation.source_index
      let score := score_candidate deps.parseTs source_message parsed
      if scoreLt st.best_score score then
        { best_score := score, best_result := some ⟨validation.answer, source_message⟩ }
      else st

/-- The `QAService` fallback answer (constructor default, used by the
composition root). -/
def fallbackAnswer : String :=
  "I couldn\x27t find the answer in the available messages."

/-- `QAService.answer_question(question)`: process cached pages, then the
remote stream starting at the cached count, appending each remote page to
the cache; a `RuntimeError` from the stream ends the search, after which
the best accumulated result (or the fallback) is returned.  The result is
paired with the final cache state; `none` means the remote loop's fuel ran
out. -/
def answer_question (deps : QADeps) (cache : CacheState) (page_size : Nat)
    (fuel : Nat) (question : String) : Option (AnswerResult × CacheState) :=
  let cleaned := String.mk (stripList question.data)
  if cleaned = "" then
    some (⟨"Please provide a non-empty question.", none⟩, cache)
  else
    let parsed := parse cleaned
    let st := (iter_pages cache page_size).foldl
      (fun st page => process_page deps cleaned parsed page st) initBest
    let remote_start := cached_count cache
    match iterate_pages deps.fetch page_size fuel remote_start none with
    | none => none
    | some r =>
      let final := r.1.foldl
        (fun (acc : BestState × CacheState) sp =>
          (process_page deps cleaned parsed sp.2 acc.1,
           (append_items acc.2 sp.2.items sp.2.total).1))
        (st, cache)
      match final.1.best_result with
      | some best => some (best, final.2)
      | none => some (⟨fallbackAnswer, none⟩, final.2)

/-- Well-formedness of a cache state, as `LocalCache.__init__`/`_load`
establish it: the id set is exactly the set of non-empty ids of the stored
messages, and those non-empty ids are pairwise distinct. -/
def CacheWF (st : CacheState) : Prop :=
  (∀ s : String, s ∈ st.ids ↔ s ≠ "" ∧ s ∈ st.messages.map msgKey)
  ∧ ((st.messages.map msgKey).filter fun s => s ≠ "").Nodup

/-- The `total` variable of `iterate_pages` after yielding a list of pages,
starting from `t0`: the most recently reported page total, if any. -/
def lastTotal (ps : List (Nat × Page)) (t0 : Option Int) : Option Int :=
  ps.foldl
    (fun acc sp =>
      match sp.2.total with
      | some t => some t
      | none => acc)
    t0

/-- The best-accumulated state after one question's whole search: the fold
of `process_page` over the cached pages and then over the given remote
pages. -/
def searchBest (deps : QADeps) (cache : CacheState) (page_size : Nat)
    (question : String) (remote : List Page) : BestState :=
  let parsed := parse question
  remote.foldl (fun st page => process_page deps question parsed page st)
    ((iter_pages cache page_size).foldl
      (fun st page => process_page deps question parsed page st) initBest)

/-- Concrete fixture message `n`. -/
def mkMsg (n : Nat) : Message := ⟨some (toString n), some "U", some "hi", none⟩

/-- Concrete fixture message with a literal id. -/
def namedMsg (s : String) : Message := ⟨some s, some "U", some "hi", none⟩

/-- Ten fixture messages, the mocked remote dataset of the pagination
scenario. -/
def tenMsgs : List Message := (List.range 10).map mkMsg

/-- Mocked remote source reporting `total=10` and serving slices of
`tenMsgs`. -/
def mockFetch : Nat → Nat → FetchResult := fun skip limit =>
  .ok ⟨(tenMsgs.drop skip).take limit, some 10⟩

/-- Fixture message from Alice about the refund policy. -/
def aliceMsg : Message :=
  ⟨some "1", some "Alice Smith", some "refund policy will be updated",
    some "2024-01-01T00:00:00"⟩

/-- Fixture remote source with a single message and `total=1`. -/
def oneFetch : Nat → Nat → FetchResult := fun _ _ =>
  .ok ⟨[mkMsg 0], some 1⟩

/-- Fixture collaborators whose validator always reports the sentinel and
whose remote source always raises. -/
def noDeps : QADeps :=
  { resolver := fun _ _ => []
    validator := fun _ _ => ⟨"NO_ANSWER", none⟩
    parseTs := fun _ => none
    fetch := fun _ _ => .err }

/-- Fixture collaborators whose validator accepts every non-empty candidate
set with answer `"A"` and no source index, over a two-message remote
source. -/
def acceptDeps : QADeps :=
  { resolver := fun _ _ => []
    validator := fun _ cands =>
      if cands.isEmpty then ⟨"NO_ANSWER", none⟩ else ⟨"A", none⟩
    parseTs := fun _ => none
    fetch := fun skip _ => .ok ⟨(tenMsgs.drop skip).take 2, some 2⟩ }

/-- Fixture LLM transport whose completion carries one tool call with
payload text `"bad"` and no plain content. -/
def badLlm : String → Completion := fun _ => ⟨[⟨none, [⟨"bad"⟩]⟩]⟩

theorem scoreLe_refl (a : Int × Nat) : scoreLe a a = true := by
  simp [scoreLe]

theorem scoreLt_le {a b : Int × Nat} (h : scoreLt a b = true) : scoreLe a b = true := by
  simp [scoreLe, h]

theorem scoreLe_iff (a b : Int × Nat) :
    scoreLe a b = true ↔ a.1 < b.1 ∨ (a.1 = b.1 ∧ a.2 ≤ b.2) := by
  have hp : (a = b) ↔ (a.1 = b.1 ∧ a.2 = b.2) := Prod.ext_iff
  simp only [scoreLe, scoreLt, Bool.or_eq_true, Bool.and_eq_true, decide_eq_true_eq, hp]
  omega

theorem scoreLe_trans {a b c : Int × Nat} (h1 : scoreLe a b = true)
    (h2 : scoreLe b c = true) : scoreLe a c = true := by
  rw [scoreLe_iff] at *
  omega

theorem process_page_le (deps : QADeps) (q : String) (parsed : ParsedQuestion)
    (page : Page) (st : BestState) :
    scoreLe st.best_score (process_page deps q parsed page st).best_score = true := by
  simp only [process_page]
  split
  · exact scoreLe_refl _
  split
  · exact scoreLe_refl _
  split
  next h => exact scoreLt_le h
  · exact scoreLe_refl _

theorem foldl_process_le (deps : QADeps) (q : String) (parsed : ParsedQuestion)
    (pages : List Page) (st : BestState) :
    scoreLe st.best_score
      ((pages.foldl (fun st page => process_page deps q parsed page st) st).best_score) = true := by
  induction pages generalizing st with
  | nil => exact scoreLe_refl _
  | cons p ps ih =>
    exact scoreLe_trans (process_page_le deps q parsed p st) (ih _)

theorem process_page_strict (deps : QADeps) (q : String) (parsed : ParsedQuestion)
    (page : Page) (st : BestState) (h : process_page deps q parsed page st ≠ st) :
    scoreLt st.best_score (process_page deps q parsed page st).best_score = true := by
  simp only [process_page] at h ⊢
  by_cases h1 : page.items.isEmpty
  · rw [if_pos h1] at h
    exact absurd rfl h
  rw [if_neg h1] at h ⊢
  by_cases h2 : (deps.validator q (pageCandidates deps q parsed page.items)).answer = "NO_ANSWER"
  · rw [if_pos h2] at h
    exact absurd rfl h
  rw [if_neg h2] at h ⊢
  by_cases h3 : scoreLt st.best_score (score_candidate deps.parseTs
      (select_source_message (pageCandidates deps q parsed page.items)
        (deps.validator q (pageCandidates deps q parsed page.items)).source_index) parsed) = true
  · rw [if_pos h3]
    exact h3
  · rw [if_neg h3] at h
    exact absurd rfl h

/-- C1: within one question's search, the best-accumulated score (keyword
count, then timestamp, lexicographically) never decreases — neither across
one page nor across any sequence of pages — and the best result is replaced
only when the new candidate's score is strictly greater, so a candidate
whose score ties the current best in both dimensions leaves the
earlier-found best in place. -/
theorem claim_best_score_monotone (deps : QADeps) (question : String)
    (parsed : ParsedQuestion) (st : BestState) (page : Page) (pages : List Page) :
    scoreLe st.best_score (process_page deps question parsed page st).best_score = true
    ∧ scoreLe st.best_score
        ((pages.foldl (fun st page => process_page deps question parsed page st) st).best_score) = true
    ∧ (process_page deps question parsed page st ≠ st →
        scoreLt st.best_score (process_page deps question parsed page st).best_score = true) :=
  ⟨process_page_le deps question parsed page st,
   foldl_process_le deps question parsed pages st,
   process_page_strict deps question parsed page st⟩

theorem claim_best_score_monotone_witness :
    (process_page acceptDeps "q" ⟨none, []⟩ ⟨[mkMsg 0], none⟩ initBest ≠ initBest)
    ∧ scoreLt initBest.best_score
        (process_page acceptDeps "q" ⟨none, []⟩ ⟨[mkMsg 0], none⟩ initBest).best_score = true :=
  ⟨by decide,
   (claim_best_score_monotone acceptDeps "q" ⟨none, []⟩ initBest ⟨[mkMsg 0], none⟩ []).2.2
     (by decide)⟩

theorem select_none_of_many (candidates : List Message)
    (h : 1 < candidates.length) :
    select_source_message candidates none = none := by
  cases candidates with
  | nil => simp at h
  | cons a t =>
    cases t with
    | nil => simp at h
    | cons b t' =>
      simp only [select_source_message, List.isEmpty_cons, Bool.false_eq_true,
        if_false, List.length_cons]
      rw [if_neg (by omega)]

theorem select_some_out_of_range (candidates : List Message) (i : Int)
    (hlen : 1 < candidates.length)
    (hout : i = 0 ∨ i - 1 < 0 ∨ candidates.length ≤ (i - 1).toNat) :
    select_source_message candidates (some i) = none := by
  cases candidates with
  | nil => simp at hlen
  | cons a t =>
    cases t with
    | nil => simp at hlen
    | cons b t' =>
      simp only [select_source_message, List.isEmpty_cons, Bool.false_eq_true,
        if_false]
      by_cases hi0 : i = 0
      · rw [if_pos hi0, if_neg (by simp)]
      rw [if_neg hi0]
      by_cases hin : i - 1 < 0
      · rw [if_pos hin, if_neg (by simp)]
      rw [if_neg hin]
      have hbig : (a :: b :: t').length ≤ (i - 1).toNat := by
        rcases hout with h0 | hneg | hb
        · exact absurd h0 hi0
        · exact absurd hneg hin
        · exact hb
      rw [List.getElem?_eq_none hbig, if_neg (by simp)]

/-- C10: a validated answer with no selectable source message (absent or
out-of-range index over more than one candidate) is scored `(0, earliest
instant)`, which strictly exceeds the initial best `(-1, earliest
instant)`; hence `answer_question` can return an `AnswerResult` whose
`answer` is the validated text while `message` is absent, and such a
source-less best is displaced by any later candidate whose score strictly
exceeds `(0, earliest instant)`. -/
theorem claim_sourceless_answer (parseTs : String → Option Nat)
    (parsed : ParsedQuestion) (candidates : List Message) (i : Int)
    (deps : QADeps) (question : String) (page : Page) (st : BestState) :
    score_candidate parseTs none parsed = (0, 0)
    ∧ scoreLt initBest.best_score (0, 0) = true
    ∧ (1 < candidates.length → select_source_message candidates none = none)
    ∧ (1 < candidates.length →
        (i = 0 ∨ i - 1 < 0 ∨ candidates.length ≤ (i - 1).toNat) →
        select_source_message candidates (some i) = none)
    ∧ ((answer_question acceptDeps ⟨[], [], none⟩ 2 5 "What is it").map Prod.fst =
        some ⟨"A", none⟩)
    ∧ (page.items.isEmpty = false → st.best_score = (0, 0) →
        (deps.validator question (pageCandidates deps question parsed page.items)).answer ≠ "NO_ANSWER" →
        scoreLt (0, 0) (score_candidate deps.parseTs
          (select_source_message (pageCandidates deps question parsed page.items)
            (deps.validator question (pageCandidates deps question parsed page.items)).source_index)
          parsed) = true →
        (process_page deps question parsed page st).best_result =
          some ⟨(deps.validator question (pageCandidates deps question parsed page.items)).answer,
            select_source_message (pageCandidates deps question parsed page.items)
              (deps.validator question (pageCandidates deps question parsed page.items)).source_index⟩) := by
  refine ⟨rfl, by decide, select_none_of_many candidates,
    select_some_out_of_range candidates i, by decide, ?_⟩
  intro hne hsc hv hlt
  simp only [process_page, hne, Bool.false_eq_true, if_false, if_neg hv]
  rw [hsc] at *
  rw [if_pos hlt]

theorem claim_sourceless_answer_witness :
    (1 < ([mkMsg 0, mkMsg 1] : List Message).length
      ∧ select_source_message [mkMsg 0, mkMsg 1] none = none)
    ∧ (((5 : Int) = 0 ∨ (5 : Int) - 1 < 0 ∨
          ([mkMsg 0, mkMsg 1] : List Message).length ≤ ((5 : Int) - 1).toNat)
      ∧ select_source_message [mkMsg 0, mkMsg 1] (some 5) = none)
    ∧ ((process_page acceptDeps "q" ⟨none, ["hi"]⟩ ⟨[mkMsg 0], none⟩
          ⟨(0, 0), some ⟨"X", none⟩⟩).best_result = some ⟨"A", some (mkMsg 0)⟩) :=
  ⟨⟨by decide,
    (claim_sourceless_answer (fun _ => none) ⟨none, ["hi"]⟩ [mkMsg 0, mkMsg 1] 5
      acceptDeps "q" ⟨[mkMsg 0], none⟩ ⟨(0, 0), some ⟨"X", none⟩⟩).2.2.1 (by decide)⟩,
   ⟨by decide,
    (claim_sourceless_answer (fun _ => none) ⟨none, ["hi"]⟩ [mkMsg 0, mkMsg 1] 5
      acceptDeps "q" ⟨[mkMsg 0], none⟩ ⟨(0, 0), some ⟨"X", none⟩⟩).2.2.2.1 (by decide)
      (by decide)⟩,
   by
    have h := (claim_sourceless_answer (fun _ => none) ⟨none, ["hi"]⟩ [mkMsg 0, mkMsg 1] 5
      acceptDeps "q" ⟨[mkMsg 0], none⟩ ⟨(0, 0), some ⟨"X", none⟩⟩).2.2.2.2.2
      (by decide) (by decide) (by decide) (by decide)
    rw [h]
    decide⟩

theorem process_page_sentinel (deps : QADeps) (question : String)
    (parsed : ParsedQuestion) (page : Page) (st : BestState)
    (hv : (deps.validator question (pageCandidates deps question parsed page.items)).answer =
      "NO_ANSWER") :
    process_page deps question parsed page st = st := by
  simp only [process_page]
  by_cases h1 : page.items.isEmpty
  · rw [if_pos h1]
  · rw [if_neg h1, if_pos hv]

/-- C5: `validate_and_answer` fails closed: an empty candidate sequence
yields the `NO_ANSWER` sentinel without issuing any LLM request, and a
tool-call payload that fails JSON decoding, is not an object, or carries a
`source_number` that cannot be converted to an integer yields the sentinel
as a value rather than an exception — so the orchestrator treats such a
page as no-answer and leaves its best state unchanged. -/
theorem claim_validator_fails_closed (parseJson : String → Option JValue)
    (llm : String → Completion) (maxm : Nat) (question : String)
    (candidates : List Message) (msg : ChatMessage) (tc : ToolCall)
    (rest : List ToolCall) (v : JValue) (fields : List (String × JValue)) :
    validate_and_answer parseJson llm maxm question [] = (⟨"NO_ANSWER", none⟩, false)
    ∧ (candidates.isEmpty = false →
        (llm (buildPrompt question (candidates.take maxm))).choices[0]? = some msg →
        msg.tool_calls = tc :: rest →
        parseJson tc.arguments = none →
        (validate_and_answer parseJson llm maxm question candidates).1 = ⟨"NO_ANSWER", none⟩)
    ∧ (candidates.isEmpty = false →
        (llm (buildPrompt question (candidates.take maxm))).choices[0]? = some msg →
        msg.tool_calls = tc :: rest →
        parseJson tc.arguments = some v → (∀ fs, v ≠ .obj fs) →
        (validate_and_answer parseJson llm maxm question candidates).1 = ⟨"NO_ANSWER", none⟩)
    ∧ (candidates.isEmpty = false →
        (llm (buildPrompt question (candidates.take maxm))).choices[0]? = some msg →
        msg.tool_calls = tc :: rest →
        parseJson tc.arguments = some (.obj fields) →
        jGet fields "source_number" = some v → v ≠ .null → pyInt v = none →
        (validate_and_answer parseJson llm maxm question candidates).1 = ⟨"NO_ANSWER", none⟩)
    ∧ (∀ (deps : QADeps) (parsed : ParsedQuestion) (page : Page) (st : BestState),
        (deps.validator question (pageCandidates deps question parsed page.items)).answer =
          "NO_ANSWER" →
        process_page deps question parsed page st = st) := by
  refine ⟨rfl, ?_, ?_, ?_, fun deps parsed page st hv =>
    process_page_sentinel deps question parsed page st hv⟩
  · intro hne hc ht hp
    simp only [validate_and_answer, hne, Bool.false_eq_true, if_false, hc, ht, hp]
  · intro hne hc ht hp hnotobj
    cases v with
    | obj fs => exact absurd rfl (hnotobj fs)
    | null => simp [validate_and_answer, hne, hc, ht, hp]
    | bool b => simp [validate_and_answer, hne, hc, ht, hp]
    | int n => simp [validate_and_answer, hne, hc, ht, hp]
    | str s => simp [validate_and_answer, hne, hc, ht, hp]
    | arr xs => simp [validate_and_answer, hne, hc, ht, hp]
  · intro hne hc ht hp hsrc hnull hpy
    cases v with
    | null => exact absurd rfl hnull
    | bool b => simp [pyInt] at hpy
    | int n => simp [pyInt] at hpy
    | str s =>
      simp only [pyInt] at hpy
      simp [validate_and_answer, hne, hc, ht, hp, hsrc, pyInt, hpy]
    | arr xs => simp [validate_and_answer, hne, hc, ht, hp, hsrc, hpy]
    | obj fs => simp [validate_and_answer, hne, hc, ht, hp, hsrc, hpy]

theorem claim_validator_fails_closed_witness :
    validate_and_answer (fun _ => none) badLlm 12 "q" [] = (⟨"NO_ANSWER", none⟩, false)
    ∧ (validate_and_answer (fun _ => none) badLlm 12 "q" [mkMsg 0]).1 = ⟨"NO_ANSWER", none⟩
    ∧ (validate_and_answer (fun _ => some (.arr [])) badLlm 12 "q" [mkMsg 0]).1 =
        ⟨"NO_ANSWER", none⟩
    ∧ (validate_and_answer
        (fun _ => some (.obj [("answer_text", .str "hi"), ("source_number", .str "abc")]))
        badLlm 12 "q" [mkMsg 0]).1 = ⟨"NO_ANSWER", none⟩
    ∧ process_page noDeps "q" ⟨none, []⟩ ⟨[mkMsg 0], none⟩ initBest = initBest :=
  ⟨(claim_validator_fails_closed (fun _ => none) badLlm 12 "q" [mkMsg 0]
      ⟨none, [⟨"bad"⟩]⟩ ⟨"bad"⟩ [] .null []).1,
   (claim_validator_fails_closed (fun _ => none) badLlm 12 "q" [mkMsg 0]
      ⟨none, [⟨"bad"⟩]⟩ ⟨"bad"⟩ [] .null []).2.1 (by decide) rfl rfl rfl,
   (claim_validator_fails_closed (fun _ => some (.arr [])) badLlm 12 "q" [mkMsg 0]
      ⟨none, [⟨"bad"⟩]⟩ ⟨"bad"⟩ [] (.arr []) []).2.2.1 (by decide) rfl rfl rfl
      (fun _ h => by cases h),
   (claim_validator_fails_closed
      (fun _ => some (.obj [("answer_text", .str "hi"), ("source_number", .str "abc")]))
      badLlm 12 "q" [mkMsg 0] ⟨none, [⟨"bad"⟩]⟩ ⟨"bad"⟩ [] (.str "abc")
      [("answer_text", .str "hi"), ("source_number", .str "abc")]).2.2.2.1
      (by decide) rfl rfl rfl rfl (fun h => by cases h) rfl,
   (claim_validator_fails_closed (fun _ => none) badLlm 12 "q" [mkMsg 0]
      ⟨none, [⟨"bad"⟩]⟩ ⟨"bad"⟩ [] .null []).2.2.2.2 noDeps ⟨none, []⟩
      ⟨[mkMsg 0], none⟩ initBest rfl⟩

theorem appendStep_skip (acc : CacheState × Bool) (item : Message)
    (hskip : msgKey item ≠ "" ∧ msgKey item ∈ acc.1.ids) :
    appendStep acc item = acc := by
  simp only [appendStep]
  rw [if_pos hskip]

theorem appendStep_add_messages (acc : CacheState × Bool) (item : Message)
    (hskip : ¬(msgKey item ≠ "" ∧ msgKey item ∈ acc.1.ids)) :
    (appendStep acc item).1.messages = acc.1.messages ++ [item] := by
  simp only [appendStep]
  rw [if_neg hskip]

theorem appendStep_add_ids (acc : CacheState × Bool) (item : Message)
    (hskip : ¬(msgKey item ≠ "" ∧ msgKey item ∈ acc.1.ids)) :
    (appendStep acc item).1.ids =
      if msgKey item = "" then acc.1.ids else msgKey item :: acc.1.ids := by
  simp only [appendStep]
  rw [if_neg hskip]

theorem appendStep_add_rt (acc : CacheState × Bool) (item : Message)
    (hskip : ¬(msgKey item ≠ "" ∧ msgKey item ∈ acc.1.ids)) :
    (appendStep acc item).1.remote_total = acc.1.remote_total := by
  simp only [appendStep]
  rw [if_neg hskip]

theorem appendStep_add_flag (acc : CacheState × Bool) (item : Message)
    (hskip : ¬(msgKey item ≠ "" ∧ msgKey item ∈ acc.1.ids)) :
    (appendStep acc item).2 = true := by
  simp only [appendStep]
  rw [if_neg hskip]

theorem appendStep_wf (acc : CacheState × Bool) (item : Message)
    (h : CacheWF acc.1) :
    CacheWF (appendStep acc item).1
    ∧ acc.1.messages <+: (appendStep acc item).1.messages := by
  obtain ⟨hids, hnd⟩ := h
  by_cases hskip : msgKey item ≠ "" ∧ msgKey item ∈ acc.1.ids
  · rw [appendStep_skip acc item hskip]
    exact ⟨⟨hids, hnd⟩, List.prefix_refl _⟩
  have hmsgs := appendStep_add_messages acc item hskip
  have hidseq := appendStep_add_ids acc item hskip
  refine ⟨⟨fun s => ?_, ?_⟩, ?_⟩
  · rw [hidseq, hmsgs]
    by_cases hkey : msgKey item = ""
    · rw [if_pos hkey, hids s]
      simp only [List.map_append, List.map_cons, List.map_nil, List.mem_append,
        hkey]
      constructor
      · exact fun hh => ⟨hh.1, Or.inl hh.2⟩
      · rintro ⟨h1, h2 | h2⟩
        · exact ⟨h1, h2⟩
        · have hs0 : s = "" := by simpa using h2
          exact absurd hs0 h1
    · rw [if_neg hkey]
      have hnotin : msgKey item ∉ acc.1.ids := fun hmem => hskip ⟨hkey, hmem⟩
      constructor
      · intro hmem
        rcases List.mem_cons.mp hmem with heq | hmem2
        · subst heq
          exact ⟨hkey, by simp⟩
        · have hh := (hids s).mp hmem2
          exact ⟨hh.1, by simp [hh.2]⟩
      · rintro ⟨hne, hm⟩
        have hm2 : s ∈ List.map msgKey acc.1.messages ∨ s = msgKey item := by
          simpa using hm
        rcases hm2 with hm3 | heq
        · exact List.mem_cons.mpr (Or.inr ((hids s).mpr ⟨hne, hm3⟩))
        · exact List.mem_cons.mpr (Or.inl heq)
  · rw [hmsgs]
    by_cases hkey : msgKey item = ""
    · simp only [List.map_append, List.map_cons, List.map_nil, hkey,
        List.filter_append]
      simpa using hnd
    · have hnotin : msgKey item ∉ acc.1.ids := fun hmem => hskip ⟨hkey, hmem⟩
      simp only [List.map_append, List.map_cons, List.map_nil,
        List.filter_append]
      have hkeep : List.filter (fun s => decide (s ≠ "")) [msgKey item] =
          [msgKey item] := by
        simp [hkey]
      rw [hkeep, List.nodup_append]
      refine ⟨hnd, List.nodup_singleton _, ?_⟩
      intro s hs hs1
      have heq : s = msgKey item := by simpa using hs1
      have hsne := List.of_mem_filter hs
      have hmem := List.mem_of_mem_filter hs
      exact hnotin (heq ▸ ((hids s).mpr ⟨by simpa using hsne, hmem⟩))
  · rw [hmsgs]
    exact ⟨[item], rfl⟩

theorem append_fold_wf (items : List Message) :
    ∀ acc : CacheState × Bool, CacheWF acc.1 →
      CacheWF (items.foldl appendStep acc).1
      ∧ acc.1.messages <+: (items.foldl appendStep acc).1.messages := by
  induction items with
  | nil => exact fun acc h => ⟨h, List.prefix_refl _⟩
  | cons i is ih =>
    intro acc h
    have hstep := appendStep_wf acc i h
    have hrest := ih (appendStep acc i) hstep.1
    exact ⟨hrest.1, hstep.2.trans hrest.2⟩

theorem append_fold_messages (items : List Message) :
    ∀ acc : CacheState × Bool, ∃ extra,
      (items.foldl appendStep acc).1.messages = acc.1.messages ++ extra
      ∧ ((items.foldl appendStep acc).2 = true ↔ (acc.2 = true ∨ extra ≠ []))
      ∧ (items.foldl appendStep acc).1.remote_total = acc.1.remote_total := by
  induction items with
  | nil =>
    intro acc
    exact ⟨[], by simp⟩
  | cons i is ih =>
    intro acc
    obtain ⟨extra, hmsg, hflag, hrt⟩ := ih (appendStep acc i)
    rw [List.foldl_cons]
    by_cases hskip : msgKey i ≠ "" ∧ msgKey i ∈ acc.1.ids
    · rw [appendStep_skip acc i hskip] at hmsg hflag hrt ⊢
      exact ⟨extra, hmsg, hflag, hrt⟩
    · rw [appendStep_add_messages acc i hskip] at hmsg
      rw [appendStep_add_flag acc i hskip] at hflag
      rw [appendStep_add_rt acc i hskip] at hrt
      refine ⟨i :: extra, ?_, ?_, ?_⟩
      · rw [hmsg]
        simp
      · rw [hflag]
        simp
      · rw [hrt]

/-- C6: for every well-formed cache state and every appended batch, the
previously stored messages keep their positions (they remain a prefix),
the non-empty stored ids stay pairwise distinct, and appending a single
item whose id is already known leaves the stored message sequence
unchanged. -/
theorem claim_cache_dedup (st : CacheState) (items : List Message)
    (rt : Option Int) (item : Message) (h : CacheWF st) :
    CacheWF (append_items st items rt).1
    ∧ st.messages <+: (append_items st items rt).1.messages
    ∧ ((((append_items st items rt).1.messages.map msgKey).filter
        fun s => s ≠ "").Nodup)
    ∧ (msgKey item ≠ "" → msgKey item ∈ st.ids →
        (append_items st [item] rt).1.messages = st.messages) := by
  have hmain : CacheWF (append_items st items rt).1
      ∧ st.messages <+: (append_items st items rt).1.messages := by
    simp only [append_items]
    by_cases hempty : items.isEmpty
    · rw [if_pos hempty]
      exact ⟨h, List.prefix_refl _⟩
    · rw [if_neg hempty]
      have hfold := append_fold_wf items (st, false) h
      cases rt with
      | none => exact hfold
      | some t =>
        refine ⟨⟨fun s => ?_, ?_⟩, hfold.2⟩
        · exact hfold.1.1 s
        · exact hfold.1.2
  refine ⟨hmain.1, hmain.2, hmain.1.2, fun hne hmem => ?_⟩
  simp only [append_items, List.isEmpty_cons, Bool.false_eq_true, if_false,
    List.foldl_cons, List.foldl_nil]
  rw [appendStep_skip (st, false) item ⟨hne, hmem⟩]
  cases rt with
  | none => rfl
  | some t => rfl

theorem claim_cache_dedup_witness :
    CacheWF ⟨[namedMsg "0"], ["0"], none⟩
    ∧ (CacheWF (append_items ⟨[namedMsg "0"], ["0"], none⟩
        [namedMsg "0", namedMsg "1"] none).1
      ∧ ([namedMsg "0"] : List Message) <+:
          (append_items ⟨[namedMsg "0"], ["0"], none⟩
            [namedMsg "0", namedMsg "1"] none).1.messages
      ∧ (append_items ⟨[namedMsg "0"], ["0"], none⟩
          [namedMsg "0"] none).1.messages = [namedMsg "0"]) := by
  have hwf : CacheWF ⟨[namedMsg "0"], ["0"], none⟩ := by
    constructor
    · intro s
      simp only [namedMsg, msgKey, List.map_cons, List.map_nil,
        Option.getD_some, List.mem_singleton]
      constructor
      · rintro rfl
        exact ⟨by decide, rfl⟩
      · exact fun hh => hh.2
    · decide
  have hc := claim_cache_dedup ⟨[namedMsg "0"], ["0"], none⟩
    [namedMsg "0", namedMsg "1"] none (namedMsg "0") hwf
  exact ⟨hwf, hc.1, hc.2.1,
    (claim_cache_dedup ⟨[namedMsg "0"], ["0"], none⟩
      [namedMsg "0", namedMsg "1"] none (namedMsg "0") hwf).2.2.2
      (by decide) (by decide)⟩

/-- C7 counterexample: a call whose items are all already known and whose
`remoteTotal` equals the stored value still persists — `append_items`
marks the store changed whenever `remote_total` is not `None`, even when
nothing changed at all, contradicting the claimed
"persists only if something changed or the total differs". -/
theorem claim_persist_gating_counterexample :
    ((append_items ⟨[namedMsg "0"], ["0"], some 5⟩ [namedMsg "0"] (some 5)).2 = true)
    ∧ (append_items ⟨[namedMsg "0"], ["0"], some 5⟩ [namedMsg "0"] (some 5)).1 =
        ⟨[namedMsg "0"], ["0"], some 5⟩ := by
  decide

/-- C7 (amended): `append_items(items, remoteTotal)` persists the store
synchronously before returning if and only if `items` is non-empty and
either a new item was actually appended or `remoteTotal` was supplied
(not `None`) — regardless of whether the supplied total differs from the
stored one; in particular a call with an empty `items` list never
persists, even when `remoteTotal` differs from the stored value. -/
theorem claim_persist_gating (st : CacheState) (items : List Message)
    (rt : Option Int) :
    (append_items st items rt).2 = true ↔
      items ≠ [] ∧
        ((append_items st items rt).1.messages ≠ st.messages ∨ rt ≠ none) := by
  by_cases hempty : items.isEmpty
  · have hnil : items = [] := by simpa using hempty
    subst hnil
    simp [append_items]
  · have hne : items ≠ [] := by simpa using hempty
    obtain ⟨extra, hmsg, hflag, _⟩ := append_fold_messages items (st, false)
    simp only [append_items, hempty, Bool.false_eq_true, if_false]
    cases rt with
    | some t =>
      exact iff_of_true rfl ⟨hne, Or.inr (by simp)⟩
    | none =>
      have hmm : (items.foldl appendStep (st, false)).1.messages ≠ st.messages ↔
          extra ≠ [] := by
        rw [hmsg]
        simp
      constructor
      · intro hflag2
        have hex := (hflag.mp hflag2).resolve_left (by simp)
        exact ⟨hne, Or.inl (hmm.mpr hex)⟩
      · rintro ⟨-, hch | hrt⟩
        · exact hflag.mpr (Or.inr (hmm.mp hch))
        · exact absurd rfl hrt

theorem claim_persist_gating_witness :
    (append_items ⟨[], [], none⟩ [mkMsg 0] none).2 = true :=
  (claim_persist_gating ⟨[], [], none⟩ [mkMsg 0] none).mpr
    ⟨by decide, Or.inl (by decide)⟩

theorem iterate_pages_offsets (fetch : Nat → Nat → FetchResult) (limit : Nat) :
    ∀ (fuel skip : Nat) (total : Option Int) (ps : List (Nat × Page)) (e : Bool),
      iterate_pages fetch limit fuel skip total = some (ps, e) →
      ∀ i (h : i < ps.length), (ps[i]).1 = skip + i * limit := by
  intro fuel
  induction fuel with
  | zero =>
    intro skip total ps e h
    simp [iterate_pages] at h
  | succ fuel ih =>
    intro skip total ps e h
    simp only [iterate_pages] at h
    split at h
    · split at h
      · have hps : ps = [] := by
          have := congrArg (fun o => Option.map Prod.fst o) h
          simpa using this.symm
        subst hps
        intro i hilt
        simp at hilt
      · next page heq =>
        split at h
        · have hps : ps = [(skip, page)] := by
            have := congrArg (fun o => Option.map Prod.fst o) h
            simpa using this.symm
          subst hps
          intro i hilt
          match i, hilt with
          | 0, _ => simp
        · split at h
          · exact absurd h (by simp)
          · next r hrec =>
            have hps : ps = (skip, page) :: r.1 := by
              have := congrArg (fun o => Option.map Prod.fst o) h
              simpa using this.symm
            subst hps
            intro i hilt
            match i, hilt with
            | 0, _ => simp
            | i + 1, hilt =>
              have hr : iterate_pages fetch limit fuel (skip + limit)
                  (match page.total with | some t => some t | none => total) =
                  some (r.1, r.2) := by
                rw [hrec]
              have := ih (skip + limit) _ r.1 r.2 hr i
                (by simpa using Nat.lt_of_succ_lt_succ hilt)
              simp only [List.getElem_cons_succ]
              rw [this, Nat.succ_mul]
              omega
    · have hps : ps = [] := by
        have := congrArg (fun o => Option.map Prod.fst o) h
        simpa using this.symm
      subst hps
      intro i hilt
      simp at hilt

theorem iterate_pages_nil_false (fetch : Nat → Nat → FetchResult) (limit : Nat) :
    ∀ (fuel skip : Nat) (total : Option Int),
      iterate_pages fetch limit fuel skip total = some ([], false) →
      ∃ t : Int, total = some t ∧ t ≤ (skip : Int) := by
  intro fuel skip total h
  cases fuel with
  | zero => simp [iterate_pages] at h
  | succ fuel =>
    simp only [iterate_pages] at h
    split at h
    · split at h
      · simp at h
      · split at h
        · simp at h
        · split at h
          · exact absurd h (by simp)
          · simp at h
    · next hk =>
      cases total with
      | none => simp at hk
      | some t =>
        refine ⟨t, rfl, ?_⟩
        simp only [decide_eq_true_eq] at hk
        omega

theorem iterate_pages_stop (fetch : Nat → Nat → FetchResult) (limit : Nat) :
    ∀ (fuel skip : Nat) (total : Option Int) (ps : List (Nat × Page))
      (hne : ps ≠ []),
      iterate_pages fetch limit fuel skip total = some (ps, false) →
      (ps.getLast hne).2.items = []
      ∨ ∃ t : Int, lastTotal ps total = some t ∧
          t ≤ ((skip + ps.length * limit : Nat) : Int) := by
  intro fuel
  induction fuel with
  | zero =>
    intro skip total ps hne h
    simp [iterate_pages] at h
  | succ fuel ih =>
    intro skip total ps hne h
    simp only [iterate_pages] at h
    split at h
    · split at h
      · simp at h
      · next page heq =>
        split at h
        · next hempty =>
          have hps : ps = [(skip, page)] := by
            have := congrArg (fun o => Option.map Prod.fst o) h
            simpa using this.symm
          subst hps
          left
          simp only [List.getLast_singleton]
          simpa using hempty
        · split at h
          · exact absurd h (by simp)
          · next r hrec =>
            have hps : ps = (skip, page) :: r.1 ∧ false = r.2 := by
              constructor
              · have := congrArg (fun o => Option.map Prod.fst o) h
                simpa using this.symm
              · have := congrArg (fun o => Option.map Prod.snd o) h
                simpa using this.symm
            obtain ⟨hps1, hps2⟩ := hps
            subst hps1
            have hr : iterate_pages fetch limit fuel (skip + limit)
                (match page.total with | some t => some t | none => total) =
                some (r.1, false) := by
              rw [hrec, hps2]
            by_cases hr1 : r.1 = []
            · rw [hr1] at hr
              obtain ⟨t, ht2, hle⟩ :=
                iterate_pages_nil_false fetch limit fuel (skip + limit) _ hr
              right
              refine ⟨t, ?_, ?_⟩
              · simp only [lastTotal, List.foldl_cons, hr1, List.foldl_nil]
                exact ht2
              · rw [hr1]
                simp only [List.length_cons, List.length_nil]
                push_cast
                push_cast at hle
                omega
            · have hstep := ih (skip + limit) _ r.1 hr1 hr
              rcases hstep with hlast | ⟨t, ht2, hle⟩
              · left
                rw [List.getLast_cons hr1]
                exact hlast
              · right
                refine ⟨t, ?_, ?_⟩
                · simp only [lastTotal, List.foldl_cons]
                  exact ht2
                · simp only [List.length_cons]
                  rw [Nat.succ_mul]
                  push_cast
                  push_cast at hle
                  omega
    · next hk =>
      have hps : ps = [] := by
        have := congrArg (fun o => Option.map Prod.fst o) h
        simpa using this.symm
      exact absurd hps hne

/-- C3: `iterate_pages(limit, start)` requests pages at offsets `start`,
`start+limit`, `start+2*limit`, ... (the i-th yielded page is fetched at
offset `start + i*limit`); a completed iteration whose page list is
non-empty ended either right after a page with an empty item list or
because the running offset reached or exceeded the most recently reported
total; and for a mocked remote source reporting `total=10`,
`iterate_pages(limit=4, start=0)` yields exactly 3 pages with item counts
4, 4, 2 fetched at offsets 0, 4, 8. -/
theorem claim_pagination (fetch : Nat → Nat → FetchResult) (limit fuel skip : Nat)
    (total : Option Int) (ps : List (Nat × Page)) (e : Bool) :
    (iterate_pages fetch limit fuel skip total = some (ps, e) →
      ∀ i (h : i < ps.length), (ps[i]).1 = skip + i * limit)
    ∧ (∀ hne : ps ≠ [],
        iterate_pages fetch limit fuel skip total = some (ps, false) →
        (ps.getLast hne).2.items = []
        ∨ ∃ t : Int, lastTotal ps total = some t ∧
            t ≤ ((skip + ps.length * limit : Nat) : Int))
    ∧ ((iterate_pages mockFetch 4 5 0 none).map
        (fun r => (r.1.map fun sp => (sp.1, sp.2.items.length), r.2)) =
        some ([(0, 4), (4, 4), (8, 2)], false)) :=
  ⟨iterate_pages_offsets fetch limit fuel skip total ps e,
   fun hne h => iterate_pages_stop fetch limit fuel skip total ps hne h,
   by decide⟩

theorem claim_pagination_witness :
    (([(0, (⟨[mkMsg 0], some 1⟩ : Page))] : List (Nat × Page))[0]).1 = 0 + 0 * 1
    ∧ ((([(0, (⟨[mkMsg 0], some 1⟩ : Page))] : List (Nat × Page)).getLast
          (List.cons_ne_nil _ _)).2.items = []
        ∨ ∃ t : Int, lastTotal [(0, ⟨[mkMsg 0], some 1⟩)] none = some t ∧
            t ≤ ((0 + ([(0, (⟨[mkMsg 0], some 1⟩ : Page))] :
              List (Nat × Page)).length * 1 : Nat) : Int)) :=
  ⟨(claim_pagination oneFetch 1 3 0 none [(0, ⟨[mkMsg 0], some 1⟩)] false).1
      (by decide) 0 (by decide),
   (claim_pagination oneFetch 1 3 0 none [(0, ⟨[mkMsg 0], some 1⟩)] false).2.1
      (List.cons_ne_nil _ _) (by decide)⟩

theorem chunks_flatten (k : Nat) :
    ∀ (m : Nat) (l : List Message), 0 < k → l.length ≤ m * k →
      m * k < l.length + k →
      (((List.range m).map fun i => (l.drop (i * k)).take k).flatten) = l := by
  intro m
  induction m with
  | zero =>
    intro l _ h1 _
    have hnil : l = [] := List.eq_nil_of_length_eq_zero (by omega)
    subst hnil
    simp
  | succ m ih =>
    intro l hk h1 h2
    rw [Nat.succ_mul] at h1 h2
    rw [List.range_succ_eq_map, List.map_cons, List.map_map, List.flatten_cons]
    have hrest : (List.range m).map ((fun i => (l.drop (i * k)).take k) ∘ (· + 1)) =
        (List.range m).map (fun i => (((l.drop k).drop (i * k)).take k)) := by
      apply List.map_congr_left
      intro i _
      simp only [Function.comp_apply]
      rw [List.drop_drop, Nat.succ_mul, Nat.add_comm k (i * k)]
    rw [hrest, ih (l.drop k) hk (by simp; omega) (by simp; omega)]
    simp

theorem ceil_mul_bounds (n k : Nat) (hk : 0 < k) :
    n ≤ ((n + k - 1) / k) * k ∧ ((n + k - 1) / k) * k < n + k := by
  have h1 : k * ((n + k - 1) / k) + (n + k - 1) % k = n + k - 1 :=
    Nat.div_add_mod _ _
  have h2 : (n + k - 1) % k < k := Nat.mod_lt _ hk
  constructor
  · rw [Nat.mul_comm]
    omega
  · rw [Nat.mul_comm]
    omega

/-- C8 counterexample: a cache state whose stored `remote_total` is `0`
(present, hence "known") replays pages reporting `total` equal to the
stored message count instead of `0`, because the code computes
`self._remote_total or total` and Python's `or` discards the falsy `0`. -/
theorem claim_cache_replay_counterexample :
    (iter_pages ⟨[namedMsg "0"], ["0"], some 0⟩ 4).map Page.total = [some 1]
    ∧ (⟨[namedMsg "0"], ["0"], some 0⟩ : CacheState).remote_total = some 0
    ∧ some (1 : Int) ≠ some (0 : Int) := by
  decide

/-- C8 (amended): `iter_pages(pageSize)` chunks the stored messages in
storage order into fixed-size chunks (the chunks concatenate back to the
store, and the i-th page holds `min pageSize (count - i*pageSize)`
messages), and every emitted page reports `total` equal to the stored
`remote_total` whenever that value is present and non-zero, and equal to
the count of all stored messages otherwise (absent or zero). -/
theorem claim_cache_replay (st : CacheState) (limit : Nat) (hl : 0 < limit) :
    ((iter_pages st limit).map Page.items).flatten = st.messages
    ∧ (∀ i (h : i < (iter_pages st limit).length),
        ((iter_pages st limit)[i]).items.length =
          min limit (st.messages.length - i * limit))
    ∧ (∀ p ∈ iter_pages st limit,
        (∀ t : Int, st.remote_total = some t → t ≠ 0 → p.total = some t)
        ∧ ((st.remote_total = none ∨ st.remote_total = some 0) →
            p.total = some (st.messages.length : Int))) := by
  by_cases h0 : st.messages.length = 0
  · have hnil : st.messages = [] := List.eq_nil_of_length_eq_zero h0
    refine ⟨?_, ?_, ?_⟩
    · simp [iter_pages, h0, hnil]
    · intro i h
      simp [iter_pages, h0] at h
    · intro p hp
      simp [iter_pages, h0] at hp
  · have hbounds := ceil_mul_bounds st.messages.length limit hl
    refine ⟨?_, ?_, ?_⟩
    · simp only [iter_pages, h0, if_false, List.map_map]
      exact chunks_flatten limit _ st.messages hl hbounds.1 hbounds.2
    · intro i h
      simp only [iter_pages, h0, if_false, List.length_map,
        List.length_range] at h
      simp only [iter_pages, h0, if_false, List.getElem_map,
        List.getElem_range, List.length_take, List.length_drop]
    · intro p hp
      simp only [iter_pages, h0, if_false, List.mem_map] at hp
      obtain ⟨i, _, hpi⟩ := hp
      subst hpi
      constructor
      · intro t ht htne
        simp [ht, htne]
      · rintro (ht | ht) <;> simp [ht]

theorem claim_cache_replay_witness :
    (0 < 4)
    ∧ ((iter_pages ⟨[namedMsg "0"], ["0"], some 0⟩ 4).map Page.items).flatten =
        [namedMsg "0"]
    ∧ (∀ p ∈ iter_pages ⟨[namedMsg "0"], ["0"], some 0⟩ 4,
        p.total = some ((1 : Nat) : Int)) := by
  refine ⟨by decide, (claim_cache_replay ⟨[namedMsg "0"], ["0"], some 0⟩ 4
    (by decide)).1, ?_⟩
  intro p hp
  exact ((claim_cache_replay ⟨[namedMsg "0"], ["0"], some 0⟩ 4
    (by decide)).2.2 p hp).2 (Or.inr rfl)

theorem containsSub_iff (hay ndl : List Char) :
    containsSub hay ndl = true ↔ ndl <:+: hay := by
  induction hay with
  | nil =>
    simp only [containsSub, List.isEmpty_iff, List.infix_nil]
  | cons h t ih =>
    simp only [containsSub, Bool.or_eq_true, List.isPrefixOf_iff_prefix, ih,
      List.infix_cons_iff]

theorem toNat_ofNat_valid (n : Nat) (h : n.isValidChar) :
    (Char.ofNat n).toNat = n := by
  simp only [Char.ofNat, h, dif_pos, Char.toNat, Char.ofNatAux]
  rfl

theorem lowerChar_idem (c : Char) : lowerChar (lowerChar c) = lowerChar c := by
  by_cases h : 65 ≤ c.toNat ∧ c.toNat ≤ 90
  · simp only [lowerChar, if_pos h]
    have hv : (c.toNat + 32).isValidChar := Or.inl (by omega)
    rw [if_neg]
    rw [toNat_ofNat_valid _ hv]
    omega
  · simp only [lowerChar, if_neg h]

theorem lowerStr_map_idem (l : List Char) :
    (l.map lowerChar).map lowerChar = l.map lowerChar := by
  rw [List.map_map]
  exact List.map_congr_left fun c _ => lowerChar_idem c

theorem keywordLoop_subset :
    ∀ (ts seen : List String) (kw : String), kw ∈ keywordLoop ts seen → kw ∈ ts := by
  intro ts
  induction ts with
  | nil =>
    intro seen kw h
    simp [keywordLoop] at h
  | cons t ts ih =>
    intro seen kw h
    simp only [keywordLoop] at h
    split at h
    · exact List.mem_cons.mpr (Or.inr (ih _ _ h))
    · split at h
      · exact List.mem_cons.mpr (Or.inr (ih _ _ h))
      · rcases List.mem_cons.mp h with rfl | hmem
        · exact List.mem_cons.mpr (Or.inl rfl)
        · exact List.mem_cons.mpr (Or.inr (ih _ _ hmem))

theorem keywords_lower (q : String) :
    ∀ kw ∈ extract_keywords q, lowerStr kw = kw := by
  intro kw hkw
  have hmem : kw ∈ (tokenRuns q.data.length q.data).map
      (fun r => String.mk (r.map lowerChar)) :=
    keywordLoop_subset _ [] kw hkw
  obtain ⟨r, _, rfl⟩ := List.mem_map.mp hmem
  simp only [lowerStr]
  exact congrArg String.mk (lowerStr_map_idem r)

/-- C4: the candidate filter keeps exactly the page messages satisfying:
when the resolver's (non-empty, lowercase) name set is non-empty, the
sender lowercased is a member of that set (the parsed member name is then
ignored); otherwise, when the parser found a member name, that name occurs
as a case-insensitive substring of the sender; otherwise every sender
passes; and additionally, whenever the parser found keywords, the message
text contains at least one of them as a case-insensitive substring. -/
theorem claim_filter_candidates (items : List Message) (parsed : ParsedQuestion)
    (resolved : List String)
    (hres : ∀ n ∈ resolved, n ≠ "" ∧ lowerStr n = n)
    (hkw : ∀ kw ∈ parsed.keywords, lowerStr kw = kw) (m : Message) :
    m ∈ filter_candidates items parsed resolved ↔
      m ∈ items
      ∧ (if resolved ≠ [] then
            lowerStr (m.user_name.getD "") ∈ resolved
          else ∀ name, parsed.member_name = some name → name ≠ "" →
            (lowerStr name).data <:+: (lowerStr (m.user_name.getD "")).data)
      ∧ (parsed.keywords ≠ [] →
          ∃ kw ∈ parsed.keywords,
            (lowerStr kw).data <:+: (lowerStr (m.message.getD "")).data) := by
  have htargets : (resolved.filter fun n => n ≠ "").map lowerStr = resolved := by
    have h1 : List.map lowerStr resolved = List.map id resolved :=
      List.map_congr_left fun n hn => (hres n hn).2
    rw [List.filter_eq_self.mpr fun n hn => by simpa using (hres n hn).1, h1,
      List.map_id]
  simp only [filter_candidates, List.mem_filter, htargets, Bool.and_eq_true]
  refine and_congr_right fun _ => and_congr ?_ ?_
  · by_cases hres0 : resolved = []
    · subst hres0
      rw [if_neg (show ¬(([] : List String) ≠ []) from fun hcon => hcon rfl)]
      rw [if_neg (show ¬¬(([] : List String).isEmpty = true) from
        fun hcon => hcon rfl)]
      cases hmn : parsed.member_name with
      | none =>
        simp
      | some name =>
        by_cases hname : name = ""
        · subst hname
          simp
        · simp only [Option.some.injEq]
          constructor
          · intro hb name2 heq hne2
            cases heq
            exact (containsSub_iff _ _).mp (by simpa [hname] using hb)
          · intro hall
            have hcs := (containsSub_iff (lowerStr (m.user_name.getD "")).data
              (lowerStr name).data).mpr (hall name rfl hname)
            simpa [hname] using hcs
    · rw [if_pos hres0]
      have hne : resolved.isEmpty = false := by
        cases resolved with
        | nil => exact absurd rfl hres0
        | cons a t => rfl
      rw [if_pos (show ¬(resolved.isEmpty = true) by rw [hne]; simp)]
      simp
  · by_cases hkw0 : parsed.keywords = []
    · rw [hkw0]
      simp
    · rw [if_neg (by simpa using hkw0)]
      simp only [List.any_eq_true, ne_eq, hkw0, not_false_eq_true,
        forall_const]
      refine exists_congr fun kw => and_congr_right fun hkwm => ?_
      rw [containsSub_iff, hkw kw hkwm]

theorem claim_filter_candidates_witness :
    (∀ kw ∈ (["refund"] : List String), lowerStr kw = kw)
    ∧ aliceMsg ∈ filter_candidates [aliceMsg] ⟨some "Alice", ["refund"]⟩ [] :=
  ⟨by decide,
   (claim_filter_candidates [aliceMsg] ⟨some "Alice", ["refund"]⟩ []
      (by simp) (by decide) aliceMsg).mpr
    ⟨by decide,
     by
      rw [if_neg (by simp)]
      intro name hn hne
      cases hn
      exact (containsSub_iff _ _).mp (by decide),
     by
      intro _
      exact ⟨"refund", by decide, (containsSub_iff _ _).mp (by decide)⟩⟩⟩

theorem extractLoop_spec (q : List Char) :
    ∀ (ms : List (Nat × List Char)) (name : String),
      extractLoop q ms = some name →
      ∃ pre i w post, ms = pre ++ (i, w) :: post
        ∧ name = String.mk (stripList w)
        ∧ name ≠ ""
        ∧ stopWords.contains (lowerStr name) = false
        ∧ precededByLocationCue q i = false
        ∧ ∀ jw ∈ pre, String.mk (stripList jw.2) = ""
            ∨ stopWords.contains (lowerStr (String.mk (stripList jw.2))) = true
            ∨ precededByLocationCue q jw.1 = true := by
  intro ms
  induction ms with
  | nil =>
    intro name h
    simp [extractLoop] at h
  | cons x rest ih =>
    intro name h
    obtain ⟨i, w⟩ := x
    simp only [extractLoop] at h
    split at h
    · next hcond =>
      split at h
      · next hnp =>
        have hname : name = String.mk (stripList w) := by
          simpa using h.symm
        refine ⟨[], i, w, rest, rfl, hname, ?_, ?_, ?_, by simp⟩
        · rw [hname]
          exact hcond.1
        · rw [hname]
          simpa using hcond.2
        · simpa using hnp
      · next hnp =>
        obtain ⟨pre, i2, w2, post, hms, h1, h2, h3, h4, h5⟩ := ih name h
        refine ⟨(i, w) :: pre, i2, w2, post, by rw [hms]; rfl, h1, h2, h3, h4, ?_⟩
        intro jw hjw
        rcases List.mem_cons.mp hjw with rfl | hmem
        · exact Or.inr (Or.inr (Decidable.not_not.mp hnp))
        · exact h5 jw hmem
    · next hcond =>
      obtain ⟨pre, i2, w2, post, hms, h1, h2, h3, h4, h5⟩ := ih name h
      refine ⟨(i, w) :: pre, i2, w2, post, by rw [hms]; rfl, h1, h2, h3, h4, ?_⟩
      intro jw hjw
      rcases List.mem_cons.mp hjw with rfl | hmem
      · by_cases hw : String.mk (stripList w) = ""
        · exact Or.inl hw
        · refine Or.inr (Or.inl ?_)
          by_contra hc
          exact hcond ⟨hw, by simpa using hc⟩
      · exact h5 jw hmem

/-- C9 counterexample: `parse("Did London mention the event")` yields
`"Did London"`, not `"London"` — the name regex
`[A-Z][a-z]+(?:\s+[A-Z][a-z]+)*` chains adjacent capitalized words, so the
leading interrogative `Did` is absorbed into the same (single) match. -/
theorem claim_member_name_counterexample :
    extract_member_name "Did London mention the event" = some "Did London"
    ∧ extract_member_name "Did London mention the event" ≠ some "London" := by
  decide

/-- C9 (amended): member-name extraction scans the regex matches rightmost
first and returns the first one that is not a stop-word and is not
immediately preceded by a locative preposition (every match to its right
is empty, a stop-word, or so preceded, and the returned one never is);
`parse("I sent it to London")` yields no member name, while
`parse("Did London mention the event")` yields `"Did London"` (the
capitalized run absorbs the adjacent capitalized interrogative). -/
theorem claim_member_name :
    (∀ (q name : String), extract_member_name q = some name →
      ∃ before i w after,
        findMatches q.data.length q.data 0 = before ++ (i, w) :: after
        ∧ name = String.mk (stripList w)
        ∧ name ≠ ""
        ∧ stopWords.contains (lowerStr name) = false
        ∧ precededByLocationCue q.data i = false
        ∧ ∀ jw ∈ after, String.mk (stripList jw.2) = ""
            ∨ stopWords.contains (lowerStr (String.mk (stripList jw.2))) = true
            ∨ precededByLocationCue q.data jw.1 = true)
    ∧ extract_member_name "I sent it to London" = none
    ∧ extract_member_name "Did London mention the event" = some "Did London" := by
  refine ⟨?_, by decide, by decide⟩
  intro q name h
  obtain ⟨pre, i, w, post, hms, h1, h2, h3, h4, h5⟩ :=
    extractLoop_spec q.data (findMatches q.data.length q.data 0).reverse name h
  have hfm : findMatches q.data.length q.data 0 =
      post.reverse ++ (i, w) :: pre.reverse := by
    have hrr := congrArg List.reverse hms
    rw [List.reverse_reverse] at hrr
    rw [hrr, List.reverse_append, List.reverse_cons, List.append_assoc]
    simp
  refine ⟨post.reverse, i, w, pre.reverse, hfm, h1, h2, h3, h4, ?_⟩
  intro jw hjw
  exact h5 jw (List.mem_reverse.mp hjw)

theorem claim_member_name_witness :
    extract_member_name "What did Alice say about the refund policy?" =
      some "Alice"
    ∧ (∃ before i w after,
        findMatches ("What did Alice say about the refund policy?").data.length
            ("What did Alice say about the refund policy?").data 0 =
          before ++ (i, w) :: after
        ∧ "Alice" = String.mk (stripList w)
        ∧ "Alice" ≠ ""
        ∧ stopWords.contains (lowerStr "Alice") = false
        ∧ precededByLocationCue
            ("What did Alice say about the refund policy?").data i = false
        ∧ ∀ jw ∈ after, String.mk (stripList jw.2) = ""
            ∨ stopWords.contains
                (lowerStr (String.mk (stripList jw.2))) = true
            ∨ precededByLocationCue
                ("What did Alice say about the refund policy?").data jw.1 =
                true) :=
  ⟨by decide,
   claim_member_name.1 "What did Alice say about the refund policy?" "Alice"
     (by decide)⟩

theorem foldPages_fst (deps : QADeps) (question : String)
    (parsed : ParsedQuestion) :
    ∀ (ps : List (Nat × Page)) (st : BestState) (cache : CacheState),
      (ps.foldl (fun (acc : BestState × CacheState) sp =>
        (process_page deps question parsed sp.2 acc.1,
         (append_items acc.2 sp.2.items sp.2.total).1)) (st, cache)).1 =
      (ps.map fun sp => sp.2).foldl
        (fun st page => process_page deps question parsed page st) st := by
  intro ps
  induction ps with
  | nil => intros; rfl
  | cons p ps ih =>
    intro st cache
    simp only [List.foldl_cons, List.map_cons]
    exact ih _ _

/-- C2: whenever the remote page stream ends — by a terminal
`RuntimeError` raised mid-stream (`e = true`) or by natural end-of-stream
(`e = false`) — `answer_question` returns a value, not an exception: the
best result accumulated over the cached pages and the remote pages fetched
so far when one exists, else the fixed fallback message. -/
theorem claim_terminal_failure (deps : QADeps) (cache : CacheState)
    (page_size fuel : Nat) (question : String)
    (hq : String.mk (stripList question.data) ≠ "")
    (ps : List (Nat × Page)) (e : Bool)
    (hit : iterate_pages deps.fetch page_size fuel (cached_count cache) none =
      some (ps, e)) :
    ∃ cache2, answer_question deps cache page_size fuel question =
      some ((searchBest deps cache page_size
          (String.mk (stripList question.data))
          (ps.map fun sp => sp.2)).best_result.getD ⟨fallbackAnswer, none⟩,
        cache2) := by
  simp only [answer_question]
  rw [if_neg hq, hit]
  simp only [searchBest]
  rw [← foldPages_fst deps (String.mk (stripList question.data))
    (parse (String.mk (stripList question.data))) ps _ cache]
  refine ⟨(ps.foldl (fun (acc : BestState × CacheState) sp =>
      (process_page deps (String.mk (stripList question.data))
        (parse (String.mk (stripList question.data))) sp.2 acc.1,
       (append_items acc.2 sp.2.items sp.2.total).1))
      ((iter_pages cache page_size).foldl
        (fun st page => process_page deps (String.mk (stripList question.data))
          (parse (String.mk (stripList question.data))) page st) initBest,
        cache)).2, ?_⟩
  cases hbr : (ps.foldl (fun (acc : BestState × CacheState) sp =>
      (process_page deps (String.mk (stripList question.data))
        (parse (String.mk (stripList question.data))) sp.2 acc.1,
       (append_items acc.2 sp.2.items sp.2.total).1))
      ((iter_pages cache page_size).foldl
        (fun st page => process_page deps (String.mk (stripList question.data))
          (parse (String.mk (stripList question.data))) page st) initBest,
        cache)).1.best_result with
  | none => simp [hbr]
  | some b => simp [hbr]

theorem claim_terminal_failure_witness :
    (String.mk (stripList ("What is it").data) ≠ "")
    ∧ iterate_pages noDeps.fetch 2 1 (cached_count ⟨[], [], none⟩) none =
        some ([], true)
    ∧ ∃ cache2, answer_question noDeps ⟨[], [], none⟩ 2 1 "What is it" =
        some ((searchBest noDeps ⟨[], [], none⟩ 2
            (String.mk (stripList ("What is it").data))
            (([] : List (Nat × Page)).map fun sp => sp.2)).best_result.getD
          ⟨fallbackAnswer, none⟩, cache2) :=
  ⟨by decide, by decide,
   claim_terminal_failure noDeps ⟨[], [], none⟩ 2 1 "What is it" (by decide)
     [] true (by decide)⟩

end NovemberQA
